import Mathlib

/-!
Verification development for the non-transitive dice game repository.
The repository holds two parallel implementations of the same design:
src/game.js and src/index.ts.  Both are embedded below, each in its own
namespace (GameJs and IndexTs).  JavaScript numbers that the programs use
as integers are modelled as Int (dice faces, user input) or Nat (indices,
ranges, secrets); byte strings (keys, digests, hash inputs) are modelled
as List Nat; the SHA3-256 HMAC primitive is an external library call, so
it enters the model as an explicit function parameter of type
List Nat -> List Nat -> List Nat (key, message bytes to digest bytes).
Object identity of JavaScript Dice instances is modelled by an explicit
id field: the parsers construct a fresh object per argument, so ids are
assigned positionally and are pairwise distinct.
-/

namespace DiceGame

/-- A lexed line of user input, after trim and upper-casing: the escape
command X, the help command ?, or a parsed integer. -/
inductive Input where
  | exit
  | help
  | num (n : Int)
deriving DecidableEq, Repr

/-- Translated from the nested counting loops shared verbatim by
ProbabilityCalculator.calculateWinProbability (src/game.js lines 53-63)
and ProbabilityCalculator.calculate (src/index.ts lines 77-86): for each
face a of the first die and each face b of the second, increment when
a > b. -/
def winCount (facesA facesB : List Int) : Nat :=
  facesA.foldl (fun acc a => facesB.foldl (fun acc2 b => if a > b then acc2 + 1 else acc2) acc) 0

/-- Modelled from the spec: the number of ordered face pairs with equal
values, used by the tie-fraction quantity of the testable properties
section.  Neither implementation computes it. -/
def tieCount (facesA facesB : List Int) : Nat :=
  (facesA.map (fun a => facesB.countP (fun b => a = b))).sum

/-- Modelled from the spec: the win-probability formula of section 4.1,
the count of ordered pairs (fa, fb) with fa > fb over the full cross
product, divided by the product of the face counts. -/
def specWinProbability (facesA facesB : List Int) : ℚ :=
  (winCount facesA facesB : ℚ) / ((facesA.length : ℚ) * (facesB.length : ℚ))

/-- Modelled from the spec: the fraction of ordered face pairs with equal
values. -/
def specTieFraction (facesA facesB : List Int) : ℚ :=
  (tieCount facesA facesB : ℚ) / ((facesA.length : ℚ) * (facesB.length : ℚ))

/-! ## Embedding of src/game.js -/

namespace GameJs

/-- Translated from class Dice (src/game.js lines 14-26).  The id field
models JavaScript object identity: the parser constructs a fresh object
per command-line argument, so distinct positions get distinct ids. -/
structure Dice where
  id : Nat
  faces : List Int
deriving DecidableEq, Repr

/-- Translated from Dice.getFace (src/game.js lines 19-21); an
out-of-bounds JavaScript index yields undefined, modelled as none. -/
def Dice.getFace (d : Dice) (index : Nat) : Option Int :=
  d.faces[index]?

/-- Assigns positional ids to the parsed face lists, modelling the order
in which the parser loop constructs fresh Dice objects. -/
def withIds : Nat → List (List Int) → List Dice
  | _, [] => []
  | i, v :: rest => ⟨i, v⟩ :: withIds (i + 1) rest

/-- The per-die validation loop of DiceParser.parseDiceConfigs
(src/game.js lines 35-47): each die must have exactly 6 faces.  String
splitting and parseInt validation happen before this point and are out
of core scope, so the input arrives as integer lists. -/
def checkDice : List (List Int) → Except String Unit
  | [] => .ok ()
  | v :: rest =>
    if v.length ≠ 6 then .error "Each die must have exactly 6 faces."
    else checkDice rest

/-- Translated from DiceParser.parseDiceConfigs (src/game.js lines
29-49): at least three dice, each with exactly 6 integer faces. -/
def parseDiceConfigs (args : List (List Int)) : Except String (List Dice) :=
  if args.length < 3 then
    .error "At least three dice are required."
  else
    match checkDice args with
    | .error e => .error e
    | .ok _ => .ok (withIds 0 args)

/-- Translated from ProbabilityCalculator.calculateWinProbability
(src/game.js lines 53-63): the nested counting loops followed by
division by the literal 36. -/
def calculateWinProbability (diceA diceB : Dice) : ℚ :=
  (DiceGame.winCount diceA.faces diceB.faces : ℚ) / 36

/-- Translated from CryptoHelper.computeHMAC (src/game.js lines 97-101):
the message number is encoded with Buffer.from([message]), a single raw
byte, which wraps the value modulo 256. -/
def encodeByte (message : Nat) : List Nat :=
  [message % 256]

/-- Translated from CryptoHelper.computeHMAC (src/game.js lines 97-101),
with the SHA3-256 HMAC primitive abstracted as the function parameter
hash. -/
def computeHMAC (hash : List Nat → List Nat → List Nat)
    (key : List Nat) (message : Nat) : List Nat :=
  hash key (encodeByte message)

/-- Translated from class FairRandomGenerator (src/game.js lines
104-123): the committed state after the constructor ran. -/
structure FairRandomGenerator where
  range : Nat
  key : List Nat
  x : Nat
  hmac : List Nat
deriving DecidableEq, Repr

/-- Translated from the FairRandomGenerator constructor (src/game.js
lines 105-110): key and x come from the secure randomness source
(modelled as parameters), and the digest is computed from key and x
before any counterpart input exists. -/
def mkFairRandomGenerator (hash : List Nat → List Nat → List Nat)
    (range : Nat) (key : List Nat) (x : Nat) : FairRandomGenerator :=
  { range := range, key := key, x := x, hmac := computeHMAC hash key x }

/-- Translated from FairRandomGenerator.getHMAC (src/game.js 112-114). -/
def FairRandomGenerator.getHMAC (g : FairRandomGenerator) : List Nat :=
  g.hmac

/-- Translated from FairRandomGenerator.computeResult (src/game.js
116-118). -/
def FairRandomGenerator.computeResult (g : FairRandomGenerator) (y : Nat) : Nat :=
  (g.x + y) % g.range

/-- Translated from FairRandomGenerator.reveal (src/game.js 120-122). -/
def FairRandomGenerator.reveal (g : FairRandomGenerator) : Nat × List Nat :=
  (g.x, g.key)

/-- One full session as Game.start runs it (src/game.js lines 181-186
and 202-208): construct the generator, publish the digest, accept the
counterpart contribution y, compute the result, reveal x and key. -/
structure SessionView where
  digest : List Nat
  result : Nat
  revealedSecret : Nat
  revealedKey : List Nat
deriving DecidableEq, Repr

def runSession (hash : List Nat → List Nat → List Nat)
    (range : Nat) (key : List Nat) (x : Nat) (y : Nat) : SessionView :=
  let g := mkFairRandomGenerator hash range key x
  { digest := g.getHMAC
    result := g.computeResult y
    revealedSecret := g.reveal.1
    revealedKey := g.reveal.2 }

inductive Mover where
  | user
  | computer
deriving DecidableEq, Repr

/-- Translated from the branch on firstMoveResult in Game.start
(src/game.js lines 189-199): result 0 prints "You guessed correctly!
You select first." and lets the user select first; otherwise the
computer selects first. -/
def firstMover (hash : List Nat → List Nat → List Nat)
    (key : List Nat) (x y : Nat) : Mover :=
  if (mkFairRandomGenerator hash 2 key x).computeResult y = 0 then
    Mover.user
  else
    Mover.computer

/-- Translated from Game.getUserNumber (src/game.js lines 130-148),
run against a finite script of input lines: X exits the process
(modelled as none), ? prints the help text and re-prompts in the same
loop, an in-range number is returned together with the unconsumed rest
of the script, and anything else re-prompts. -/
def getUserNumber (range : Nat) : List Input → Option (Nat × List Input)
  | [] => none
  | Input.exit :: _ => none
  | Input.help :: rest => getUserNumber range rest
  | Input.num n :: rest =>
    if 0 ≤ n ∧ n < (range : Int) then some (n.toNat, rest)
    else getUserNumber range rest

/-- Translated from the pool reduction in Game.start (src/game.js lines
192 and 197): diceList.filter keeps exactly the dice that are not
identical (by object identity, modelled as id equality) to the chosen
one. -/
def remainingDice (diceList : List Dice) (chosen : Dice) : List Dice :=
  diceList.filter (fun d => d.id != chosen.id)

end GameJs

/-! ## Embedding of src/index.ts -/

namespace IndexTs

/-- Translated from class Dice (src/index.ts lines 6-20), with the id
field modelling JavaScript object identity as in GameJs.Dice. -/
structure Dice where
  id : Nat
  faces : List Int
deriving DecidableEq, Repr

/-- Translated from Dice.getFace (src/index.ts lines 9-11). -/
def Dice.getFace (d : Dice) (index : Nat) : Option Int :=
  d.faces[index]?

/-- Translated from Dice.numFaces (src/index.ts lines 13-15). -/
def Dice.numFaces (d : Dice) : Nat :=
  d.faces.length

/-- Assigns positional ids to the parsed face lists, modelling the order
in which DiceParser.parse constructs fresh Dice objects. -/
def withIds : Nat → List (List Int) → List Dice
  | _, [] => []
  | i, v :: rest => ⟨i, v⟩ :: withIds (i + 1) rest

/-- The per-die loop of DiceParser.parse (src/index.ts lines 29-39):
rejects an empty face list and face counts different from the first
die.  The accumulator carries the face count of the first die once it
is known. -/
def parseGo : Option Nat → List (List Int) → Except String (List (List Int))
  | _, [] => .ok []
  | faceCount?, faces :: rest =>
    if faces.length = 0 then .error "Each die must have at least one face."
    else
      match faceCount? with
      | none =>
        match parseGo (some faces.length) rest with
        | .error e => .error e
        | .ok parsed => .ok (faces :: parsed)
      | some faceCount =>
        if faces.length ≠ faceCount then
          .error "All dice must have the same number of faces."
        else
          match parseGo (some faceCount) rest with
          | .error e => .error e
          | .ok parsed => .ok (faces :: parsed)

/-- Translated from DiceParser.parse (src/index.ts lines 24-41). -/
def parse (args : List (List Int)) : Except String (List Dice) :=
  if args.length < 3 then .error "At least three dice are required."
  else
    match parseGo none args with
    | .error e => .error e
    | .ok parsed => .ok (withIds 0 parsed)

/-- The decimal representation of a natural number as its ASCII byte
sequence, modelling number.toString() for the nonnegative integers the
program hashes. -/
def decDigits (n : Nat) : List Nat :=
  if h : n < 10 then [48 + n]
  else decDigits (n / 10) ++ [48 + n % 10]
decreasing_by exact Nat.div_lt_self (by omega) (by omega)

/-- Translated from HMACCalculator.calculateHMAC (src/index.ts lines
50-52): the message number is encoded as its decimal string before
hashing, with the SHA3-256 HMAC primitive abstracted as the function
parameter hash. -/
def calculateHMAC (hash : List Nat → List Nat → List Nat)
    (key : List Nat) (number : Nat) : List Nat :=
  hash key (decDigits number)

/-- One run of FairRandomGenerator.generate (src/index.ts lines 59-72)
on a successfully parsed user number: key and computerNum come from the
secure randomness source (parameters), the digest is computed and
printed before the user number is read, then the combined result is
computed and computerNum with key are revealed. -/
def runGenerate (hash : List Nat → List Nat → List Nat)
    (range : Nat) (key : List Nat) (computerNum : Nat) (userNum : Nat) :
    GameJs.SessionView :=
  { digest := calculateHMAC hash key computerNum
    result := (computerNum + userNum) % range
    revealedSecret := computerNum
    revealedKey := key }

/-- Translated from ProbabilityCalculator.calculate (src/index.ts lines
77-86): the same nested counting loops as in game.js, divided by the
product of the face counts when it is positive, else 0. -/
def calculate (dice1 dice2 : Dice) : ℚ :=
  let total := dice1.numFaces * dice2.numFaces
  if 0 < total then (DiceGame.winCount dice1.faces dice2.faces : ℚ) / (total : ℚ)
  else 0

/-- Translated from the result mapping of Game.determineFirst
(src/index.ts line 130): result 0 means the computer selects first,
anything else means the user selects first.  The committed secret is
computerNum, the user contribution is y. -/
def firstMover (computerNum y : Nat) : GameJs.Mover :=
  if (computerNum + y) % 2 = 0 then GameJs.Mover.computer
  else GameJs.Mover.user

/-- Result of one UserInterface.getNumber call (src/index.ts lines
104-114): the escape input exits the process, the help input and every
invalid input return null, an in-range number is returned. -/
inductive NumRes where
  | exit
  | null
  | val (n : Nat)
deriving DecidableEq, Repr

/-- Translated from UserInterface.getNumber (src/index.ts lines
104-114).  Unlike GameJs.getUserNumber it reads exactly one line and
never re-prompts. -/
def getNumber (range : Nat) (t : Input) : NumRes :=
  match t with
  | Input.exit => NumRes.exit
  | Input.help => NumRes.null
  | Input.num n =>
    if 0 ≤ n ∧ n < (range : Int) then NumRes.val n.toNat else NumRes.null

/-- Translated from the splice-based pool reduction of Game.selectDice
(src/index.ts lines 140 and 149): available.splice(idx, 1) removes the
element at position idx. -/
def spliceOut (available : List Dice) (idx : Nat) : List Dice :=
  available.eraseIdx idx

inductive Outcome where
  | userWins
  | computerWins
  | tie
deriving DecidableEq, Repr

/-- Outcome of the roll phase of one Game.play iteration (src/index.ts
lines 180-189): the process exits or an array read fails (stop), a null
from a session sends play back to the top of its loop (restart, with
the unconsumed streams), or both rolls succeed (done). -/
inductive PhaseOut where
  | stop
  | restart (secrets : List Nat) (script : List Input)
  | done (o : Outcome)
deriving DecidableEq, Repr

/-- Translated from the two roll calls of Game.play (src/index.ts lines
180-189) and Game.roll (lines 158-166): each roll runs
FairRandomGenerator.generate with range die.numFaces(), drawing the
computer number from the randomness stream and the user number from the
input script; the commit counter increments when the generate call
publishes its HMAC, before the user input is read. -/
def rollPhase : List Nat → List Input → Nat → Dice → Dice → Nat × PhaseOut
  | s3 :: secrets, t3 :: script, commits, computerDie, userDie =>
    let commits := commits + 1
    match getNumber computerDie.numFaces t3 with
    | NumRes.exit => (commits, PhaseOut.stop)
    | NumRes.null => (commits, PhaseOut.restart secrets script)
    | NumRes.val y3 =>
      match computerDie.getFace ((s3 % computerDie.numFaces + y3) % computerDie.numFaces) with
      | none => (commits, PhaseOut.stop)
      | some compRoll =>
        match secrets, script with
        | s4 :: secrets, t4 :: script =>
          let commits := commits + 1
          match getNumber userDie.numFaces t4 with
          | NumRes.exit => (commits, PhaseOut.stop)
          | NumRes.null => (commits, PhaseOut.restart secrets script)
          | NumRes.val y4 =>
            match userDie.getFace ((s4 % userDie.numFaces + y4) % userDie.numFaces) with
            | none => (commits, PhaseOut.stop)
            | some userRoll =>
              (commits, PhaseOut.done
                (if userRoll > compRoll then Outcome.userWins
                 else if userRoll < compRoll then Outcome.computerWins
                 else Outcome.tie))
        | _, _ => (commits, PhaseOut.stop)
  | _, _, commits, _, _ => (commits, PhaseOut.stop)

/-- Translated from Game.play (src/index.ts lines 168-196) together
with Game.determineFirst (125-131) and Game.selectDice (133-156), run
against finite streams: secrets is the sequence of values produced by
the crypto.randomInt calls (committed session secrets and computer die
picks, each reduced modulo its range), script is the sequence of user
input lines, commits counts the published HMAC commitments, and fuel
bounds the number of loop iterations (the result is none when it runs
out, as when a stream is exhausted or the process exits).  Every null
returned by a session makes play render the table and continue, which
restarts the loop at determineFirst. -/
def play : Nat → List Dice → List Nat → List Input → Nat → Nat × Option Outcome
  | 0, _, _, _, commits => (commits, none)
  | fuel + 1, dice, s :: secrets, t :: script, commits =>
    let commits := commits + 1
    match getNumber 2 t with
    | NumRes.exit => (commits, none)
    | NumRes.null => play fuel dice secrets script commits
    | NumRes.val y =>
      if (s % 2 + y) % 2 = 0 then
        match secrets with
        | [] => (commits, none)
        | s2 :: secrets =>
          match dice[s2 % dice.length]?, script with
          | some computerDie, t2 :: script =>
            let available := spliceOut dice (s2 % dice.length)
            match getNumber available.length t2 with
            | NumRes.exit => (commits, none)
            | NumRes.null => play fuel dice secrets script commits
            | NumRes.val i =>
              match available[i]? with
              | none => (commits, none)
              | some userDie =>
                match rollPhase secrets script commits computerDie userDie with
                | (c, PhaseOut.stop) => (c, none)
                | (c, PhaseOut.restart secrets2 script2) => play fuel dice secrets2 script2 c
                | (c, PhaseOut.done o) => (c, some o)
          | _, _ => (commits, none)
      else
        match script with
        | [] => (commits, none)
        | t2 :: script =>
          match getNumber dice.length t2 with
          | NumRes.exit => (commits, none)
          | NumRes.null => play fuel dice secrets script commits
          | NumRes.val i =>
            match dice[i]?, secrets with
            | some userDie, s2 :: secrets =>
              let available := spliceOut dice i
              match available[s2 % available.length]? with
              | none => (commits, none)
              | some computerDie =>
                match rollPhase secrets script commits computerDie userDie with
                | (c, PhaseOut.stop) => (c, none)
                | (c, PhaseOut.restart secrets2 script2) => play fuel dice secrets2 script2 c
                | (c, PhaseOut.done o) => (c, some o)
            | _, _ => (commits, none)
  | _ + 1, _, _, _, commits => (commits, none)

end IndexTs

/-! ## Concrete fixtures used by witnesses and counterexamples -/

/-- A degenerate keyed hash that returns the message bytes unchanged;
it is injective in the message, which is the idealisation of the
collision resistance of the SHA3-256 HMAC the programs call. -/
def msgHash : List Nat → List Nat → List Nat :=
  fun _ message => message

/-- Three one-face dice for the index.ts play-loop scenarios. -/
def dice3 : List IndexTs.Dice :=
  [⟨0, [1]⟩, ⟨1, [2]⟩, ⟨2, [3]⟩]

/-- A script that finishes a whole game of index.ts on dice3: guess 0
for the first mover, select die 0, contribute 0 to each roll. -/
def scriptPlain : List Input :=
  [Input.num 0, Input.num 0, Input.num 0, Input.num 0]

/-- The same script with one help query in front, sent while the
first-mover session is awaiting the counterpart contribution. -/
def scriptHelp : List Input :=
  Input.help :: scriptPlain

/-- A randomness stream long enough for either script. -/
def secrets5 : List Nat :=
  [0, 0, 0, 0, 0]

/-- The standard three non-transitive dice of the worked examples. -/
def diceA : GameJs.Dice := ⟨0, [2, 2, 4, 4, 9, 9]⟩

def diceB : GameJs.Dice := ⟨1, [1, 1, 6, 6, 8, 8]⟩

def diceC : GameJs.Dice := ⟨2, [3, 3, 5, 5, 7, 7]⟩

def indexDiceA : IndexTs.Dice := ⟨0, [2, 2, 4, 4, 9, 9]⟩

def indexDiceB : IndexTs.Dice := ⟨1, [1, 1, 6, 6, 8, 8]⟩

/-- One-face dice used to exercise the game.js probability function
outside the 6-face domain. -/
def gameDieOne : GameJs.Dice := ⟨0, [1]⟩

def gameDieZero : GameJs.Dice := ⟨1, [0]⟩

/-- A minimal valid command line of three 6-face dice, pre-split into
integer lists, with the dice both parsers produce from it. -/
def sixArgs : List (List Int) :=
  [[1, 1, 1, 1, 1, 1], [2, 2, 2, 2, 2, 2], [3, 3, 3, 3, 3, 3]]

def sixDiceGame : List GameJs.Dice :=
  [⟨0, [1, 1, 1, 1, 1, 1]⟩, ⟨1, [2, 2, 2, 2, 2, 2]⟩, ⟨2, [3, 3, 3, 3, 3, 3]⟩]

def sixDiceIndex : List IndexTs.Dice :=
  [⟨0, [1, 1, 1, 1, 1, 1]⟩, ⟨1, [2, 2, 2, 2, 2, 2]⟩, ⟨2, [3, 3, 3, 3, 3, 3]⟩]

/-! ## Helper lemmas -/

theorem inner_loop_count (a : Int) (B : List Int) (acc : Nat) :
    B.foldl (fun acc2 b => if a > b then acc2 + 1 else acc2) acc
      = acc + B.countP (fun b => b < a) := by
  induction B generalizing acc with
  | nil => simp
  | cons b B ih =>
    simp only [List.foldl_cons, List.countP_cons, ih]
    by_cases h : b < a
    · simp [h, gt_iff_lt]; omega
    · simp [h, gt_iff_lt]

theorem winCount_eq_sum (A B : List Int) :
    winCount A B = (A.map (fun a => B.countP (fun b => b < a))).sum := by
  unfold winCount
  suffices h : ∀ acc : Nat,
      A.foldl (fun acc a => B.foldl (fun acc2 b => if a > b then acc2 + 1 else acc2) acc) acc
        = acc + (A.map (fun a => B.countP (fun b => b < a))).sum by
    simpa using h 0
  induction A with
  | nil => simp
  | cons a A ih =>
    intro acc
    rw [List.foldl_cons, ih, inner_loop_count]
    simp only [List.map_cons, List.sum_cons]
    omega

theorem countP_trichotomy (a : Int) (B : List Int) :
    B.countP (fun b => b < a) + B.countP (fun b => a < b) + B.countP (fun b => a = b)
      = B.length := by
  induction B with
  | nil => simp
  | cons b B ih =>
    simp only [List.countP_cons, List.length_cons]
    rcases lt_trichotomy b a with h | h | h
    · have h2 : ¬ a < b := by omega
      have h3 : ¬ a = b := by omega
      simp [h, h2, h3]
      omega
    · subst h
      simp
      omega
    · have h1 : ¬ b < a := by omega
      have h3 : ¬ a = b := by omega
      simp [h, h1, h3]
      omega

theorem sum_map_add (f g : Int → Nat) (l : List Int) :
    (l.map (fun x => f x + g x)).sum = (l.map f).sum + (l.map g).sum := by
  induction l with
  | nil => simp
  | cons x l ih =>
    simp only [List.map_cons, List.sum_cons, ih]
    omega

theorem sum_ite_countP (p : Int → Bool) (l : List Int) :
    (l.map (fun x => if p x then 1 else 0)).sum = l.countP p := by
  induction l with
  | nil => simp
  | cons x l ih =>
    simp only [List.map_cons, List.sum_cons, List.countP_cons, ih]
    omega

theorem sum_countP_swap (p : Int → Int → Bool) (A B : List Int) :
    (B.map (fun b => A.countP (p b))).sum
      = (A.map (fun a => B.countP (fun b => p b a))).sum := by
  induction A with
  | nil => simp
  | cons a A ih =>
    calc (B.map (fun b => (a :: A).countP (p b))).sum
        = (B.map (fun b => A.countP (p b) + (if p b a then 1 else 0))).sum := by
          simp [List.countP_cons]
      _ = (B.map (fun b => A.countP (p b))).sum
            + (B.map (fun b => if p b a then 1 else 0)).sum := by
          rw [sum_map_add (fun b => A.countP (p b)) (fun b => if p b a then 1 else 0) B]
      _ = (A.map (fun a => B.countP (fun b => p b a))).sum + B.countP (fun b => p b a) := by
          rw [ih, sum_ite_countP]
      _ = ((a :: A).map (fun a => B.countP (fun b => p b a))).sum := by
          simp [Nat.add_comm]

theorem win_win_tie (A B : List Int) :
    winCount A B + winCount B A + tieCount A B = A.length * B.length := by
  rw [winCount_eq_sum A B, winCount_eq_sum B A,
    sum_countP_swap (fun b a => decide (a < b)) A B]
  unfold tieCount
  induction A with
  | nil => simp
  | cons a A ih =>
    simp only [List.map_cons, List.sum_cons, List.length_cons]
    have tri := countP_trichotomy a B
    have hmul : (A.length + 1) * B.length = A.length * B.length + B.length := by ring
    omega

theorem win_tie_sum_rat (Af Bf : List Int) (hn : 0 < Af.length) (hm : 0 < Bf.length) :
    (winCount Af Bf : ℚ) / ((Af.length : ℚ) * (Bf.length : ℚ))
      + (winCount Bf Af : ℚ) / ((Bf.length : ℚ) * (Af.length : ℚ))
      + specTieFraction Af Bf = 1 := by
  have h := win_win_tie Af Bf
  have h1 : (0 : ℚ) < (Af.length : ℚ) := by exact_mod_cast hn
  have h2 : (0 : ℚ) < (Bf.length : ℚ) := by exact_mod_cast hm
  have hq : ((Af.length : ℚ) * (Bf.length : ℚ)) ≠ 0 := by positivity
  have hsum : ((winCount Af Bf : ℚ) + (winCount Bf Af : ℚ)) + (tieCount Af Bf : ℚ)
      = (Af.length : ℚ) * (Bf.length : ℚ) := by exact_mod_cast h
  unfold specTieFraction
  rw [mul_comm ((Bf.length : ℚ)) ((Af.length : ℚ)), div_add_div_same, div_add_div_same,
    hsum, div_self hq]

theorem specTieFraction_nonneg (Af Bf : List Int) : 0 ≤ specTieFraction Af Bf := by
  unfold specTieFraction
  positivity

theorem decDigits_small {n : Nat} (h : n < 10) : IndexTs.decDigits n = [48 + n] := by
  rw [IndexTs.decDigits]
  simp [h]

theorem decDigits_large {n : Nat} (h : ¬ n < 10) :
    IndexTs.decDigits n = IndexTs.decDigits (n / 10) ++ [48 + n % 10] := by
  rw [IndexTs.decDigits]
  simp [h]

theorem decDigits_ne_nil (n : Nat) : IndexTs.decDigits n ≠ [] := by
  by_cases h : n < 10
  · rw [decDigits_small h]
    simp
  · rw [decDigits_large h]
    simp

theorem encode_ne_decDigits (s : Nat) : GameJs.encodeByte s ≠ IndexTs.decDigits s := by
  by_cases h : s < 10
  · rw [decDigits_small h]
    unfold GameJs.encodeByte
    intro heq
    have h1 : s % 256 = 48 + s := by simpa using heq
    have h2 : s % 256 = s := Nat.mod_eq_of_lt (by omega)
    omega
  · rw [decDigits_large h]
    unfold GameJs.encodeByte
    intro heq
    have hlen := congrArg List.length heq
    have hpos : 0 < (IndexTs.decDigits (s / 10)).length :=
      List.length_pos.mpr (decDigits_ne_nil (s / 10))
    simp only [List.length_cons, List.length_nil, List.length_append] at hlen
    omega

theorem checkDice_ok : ∀ (args : List (List Int)),
    GameJs.checkDice args = .ok () → ∀ v ∈ args, v.length = 6 := by
  intro args
  induction args with
  | nil => simp
  | cons v rest ih =>
    intro h
    by_cases hv : v.length = 6
    · have h' : GameJs.checkDice rest = .ok () := by
        simpa [GameJs.checkDice, hv] using h
      intro w hw
      rcases List.mem_cons.mp hw with rfl | hw'
      · exact hv
      · exact ih h' w hw'
    · exfalso
      simp [GameJs.checkDice, hv] at h

theorem withIds_faces_mem_game : ∀ (i : Nat) (args : List (List Int)) (d : GameJs.Dice),
    d ∈ GameJs.withIds i args → d.faces ∈ args := by
  intro i args
  induction args generalizing i with
  | nil => simp [GameJs.withIds]
  | cons v rest ih =>
    intro d hd
    simp only [GameJs.withIds, List.mem_cons] at hd
    rcases hd with rfl | hd
    · simp
    · exact List.mem_cons_of_mem _ (ih (i + 1) d hd)

theorem withIds_faces_mem_index : ∀ (i : Nat) (args : List (List Int)) (d : IndexTs.Dice),
    d ∈ IndexTs.withIds i args → d.faces ∈ args := by
  intro i args
  induction args generalizing i with
  | nil => simp [IndexTs.withIds]
  | cons v rest ih =>
    intro d hd
    simp only [IndexTs.withIds, List.mem_cons] at hd
    rcases hd with rfl | hd
    · simp
    · exact List.mem_cons_of_mem _ (ih (i + 1) d hd)

theorem parse_game_faces {args : List (List Int)} {dice : List GameJs.Dice}
    (h : GameJs.parseDiceConfigs args = .ok dice) :
    ∀ d ∈ dice, d.faces.length = 6 := by
  by_cases h3 : args.length < 3
  · simp [GameJs.parseDiceConfigs, h3] at h
  · cases hc : GameJs.checkDice args with
    | error e => simp [GameJs.parseDiceConfigs, h3, hc] at h
    | ok u =>
      cases u
      have hd : dice = GameJs.withIds 0 args := by
        have := h
        simp [GameJs.parseDiceConfigs, h3, hc] at this
        exact this.symm
      intro d hdm
      exact checkDice_ok args hc d.faces (withIds_faces_mem_game 0 args d (hd ▸ hdm))

theorem parseGo_ok : ∀ (args : List (List Int)) (fc? : Option Nat)
    (parsed : List (List Int)), IndexTs.parseGo fc? args = .ok parsed →
    parsed = args ∧ ∀ v ∈ args, 0 < v.length := by
  intro args
  induction args with
  | nil =>
    intro fc? parsed h
    simp [IndexTs.parseGo] at h
    subst h
    simp
  | cons v rest ih =>
    intro fc? parsed h
    by_cases hv : v.length = 0
    · exfalso
      cases fc? <;> simp [IndexTs.parseGo, hv] at h
    · cases fc? with
      | none =>
        cases hr : IndexTs.parseGo (some v.length) rest with
        | error e => simp [IndexTs.parseGo, hv, hr] at h
        | ok p =>
          have hp : parsed = v :: p := by
            have := h
            simp [IndexTs.parseGo, hv, hr] at this
            exact this.symm
          obtain ⟨hpr, hall⟩ := ih (some v.length) p hr
          subst hp
          subst hpr
          refine ⟨rfl, ?_⟩
          intro w hw
          rcases List.mem_cons.mp hw with rfl | hw'
          · omega
          · exact hall w hw'
      | some fc =>
        by_cases hfc : v.length ≠ fc
        · exfalso
          simp [IndexTs.parseGo, hv, hfc] at h
        · cases hr : IndexTs.parseGo (some fc) rest with
          | error e => simp [IndexTs.parseGo, hv, hfc, hr] at h
          | ok p =>
            have hp : parsed = v :: p := by
              have := h
              simp [IndexTs.parseGo, hv, hfc, hr] at this
              exact this.symm
            obtain ⟨hpr, hall⟩ := ih (some fc) p hr
            subst hp
            subst hpr
            refine ⟨rfl, ?_⟩
            intro w hw
            rcases List.mem_cons.mp hw with rfl | hw'
            · omega
            · exact hall w hw'

theorem parse_index_faces {args : List (List Int)} {dice : List IndexTs.Dice}
    (h : IndexTs.parse args = .ok dice) :
    ∀ d ∈ dice, 0 < d.faces.length := by
  by_cases h3 : args.length < 3
  · simp [IndexTs.parse, h3] at h
  · cases hp : IndexTs.parseGo none args with
    | error e => simp [IndexTs.parse, h3, hp] at h
    | ok parsed =>
      have hd : dice = IndexTs.withIds 0 parsed := by
        have := h
        simp [IndexTs.parse, h3, hp] at this
        exact this.symm
      obtain ⟨hpr, hall⟩ := parseGo_ok args none parsed hp
      intro d hdm
      have hfm : d.faces ∈ parsed := withIds_faces_mem_index 0 parsed d (hd ▸ hdm)
      exact hall d.faces (hpr ▸ hfm)

theorem filter_ne_length : ∀ (pool : List GameJs.Dice) (chosen : GameJs.Dice),
    (pool.map GameJs.Dice.id).Nodup → chosen ∈ pool →
    (pool.filter (fun d => d.id != chosen.id)).length + 1 = pool.length := by
  intro pool chosen
  induction pool with
  | nil =>
    intro _ h
    simp at h
  | cons p rest ih =>
    intro hnodup hmem
    simp only [List.map_cons, List.nodup_cons] at hnodup
    obtain ⟨hpid, hrest⟩ := hnodup
    rcases List.mem_cons.mp hmem with rfl | hmem'
    · have hfilter : rest.filter (fun d => d.id != chosen.id) = rest := by
        apply List.filter_eq_self.mpr
        intro d hd
        have hne : d.id ≠ chosen.id := by
          intro he
          exact hpid (he ▸ List.mem_map_of_mem GameJs.Dice.id hd)
        simpa using hne
      simp [List.filter_cons, hfilter]
    · have hpc : p.id ≠ chosen.id := by
        intro he
        apply hpid
        rw [he]
        exact List.mem_map_of_mem GameJs.Dice.id hmem'
      have := ih hrest hmem'
      simp only [List.filter_cons, List.length_cons]
      simp [hpc]
      omega

theorem eraseIdx_spec : ∀ (l : List IndexTs.Dice) (i : Nat) (d : IndexTs.Dice),
    (l.map IndexTs.Dice.id).Nodup → l[i]? = some d →
    d ∉ l.eraseIdx i ∧ (l.eraseIdx i).length + 1 = l.length ∧
    ∀ e ∈ l.eraseIdx i, e ∈ l ∧ e.id ≠ d.id := by
  intro l
  induction l with
  | nil =>
    intro i d _ h
    simp at h
  | cons p rest ih =>
    intro i d hnodup hget
    simp only [List.map_cons, List.nodup_cons] at hnodup
    obtain ⟨hpid, hrest⟩ := hnodup
    cases i with
    | zero =>
      have hd : d = p := by
        have hp : p = d := by simpa using hget
        exact hp.symm
      refine ⟨?_, by simp, ?_⟩
      · intro hmem
        have hm : d ∈ rest := by simpa using hmem
        rw [hd] at hm
        exact hpid (List.mem_map_of_mem IndexTs.Dice.id hm)
      · intro e he
        have he' : e ∈ rest := by simpa using he
        refine ⟨List.mem_cons_of_mem _ he', ?_⟩
        rw [hd]
        intro hei
        exact hpid (hei ▸ List.mem_map_of_mem IndexTs.Dice.id he')
    | succ i =>
      have hget' : rest[i]? = some d := by simpa using hget
      obtain ⟨h1, h2, h3⟩ := ih i d hrest hget'
      have hdm : d ∈ rest := by
        have hi : i < rest.length := by
          by_contra hc
          rw [List.getElem?_eq_none (by omega)] at hget'
          exact Option.noConfusion hget'
        have : rest[i] = d := by
          have := List.getElem?_eq_getElem hi
          rw [this] at hget'
          exact Option.some.inj hget'
        exact this ▸ List.getElem_mem hi
      have hpd : p.id ≠ d.id := fun he => hpid (he ▸ List.mem_map_of_mem _ hdm)
      refine ⟨?_, ?_, ?_⟩
      · intro hmem
        have : d = p ∨ d ∈ rest.eraseIdx i := by simpa using hmem
        rcases this with rfl | hm
        · exact hpd rfl
        · exact h1 hm
      · simp only [List.eraseIdx_cons_succ, List.length_cons]
        omega
      · intro e he
        have : e = p ∨ e ∈ rest.eraseIdx i := by simpa using he
        rcases this with rfl | hm
        · exact ⟨List.mem_cons_self _ _, fun he2 => hpd he2⟩
        · obtain ⟨hm1, hm2⟩ := h3 e hm
          exact ⟨List.mem_cons_of_mem _ hm1, hm2⟩

theorem getElem_of_lt {l : List Int} {i : Nat} (h : i < l.length) :
    ∃ v, l[i]? = some v ∧ v ∈ l := by
  refine ⟨l[i], List.getElem?_eq_getElem h, List.getElem_mem h⟩

/-! ## Claims -/

/-- C1 counterexample: the claim fixes the convention result 0 means the
committing computer moves first and result 1 means the user moves first,
and instantiates it at secret 0 with contribution 1.  In game.js the
mapping is the opposite: with secret 0 and contribution 1 the result is
1 and the computer, not the user, selects first; with secret 0 and
contribution 0 the result is 0 and the user, not the computer, selects
first. -/
theorem claim_C1_counterexample :
    GameJs.firstMover msgHash [] 0 1 = GameJs.Mover.computer ∧
    GameJs.firstMover msgHash [] 0 1 ≠ GameJs.Mover.user ∧
    GameJs.firstMover msgHash [] 0 0 = GameJs.Mover.user ∧
    GameJs.firstMover msgHash [] 0 0 ≠ GameJs.Mover.computer := by
  refine ⟨rfl, ?_, rfl, ?_⟩ <;> decide

/-- C1 (amended): the DetermineFirstMover step runs a session with
range 2 and maps the result by a fixed convention, but the two
implementations use opposite conventions.  In index.ts, result 0 means
the computer moves first and result 1 means the user moves first, so
with secret 0 and contribution 1 the user moves first.  In game.js,
result 0 means the user moves first and result 1 means the computer
moves first, so with secret 0 and contribution 1 the computer moves
first. -/
theorem claim_C1_amended :
    (∀ (hash : List Nat → List Nat → List Nat) (key : List Nat) (x y : Nat),
      IndexTs.firstMover x y
          = (if (x + y) % 2 = 0 then GameJs.Mover.computer else GameJs.Mover.user) ∧
      GameJs.firstMover hash key x y
          = (if (x + y) % 2 = 0 then GameJs.Mover.user else GameJs.Mover.computer)) ∧
    IndexTs.firstMover 0 1 = GameJs.Mover.user ∧
    GameJs.firstMover msgHash [] 0 1 = GameJs.Mover.computer :=
  ⟨fun _ _ _ _ => ⟨rfl, rfl⟩, rfl, rfl⟩

/-- C2 counterexample: the claim says the win probability is the count
of winning ordered pairs divided by the product of the face counts for
dice of equal or differing face counts, but game.js divides by the
literal 36: on the one-face dice [1] and [0] it returns 1/36 while the
claimed formula gives 1. -/
theorem claim_C2_counterexample :
    GameJs.calculateWinProbability gameDieOne gameDieZero
      ≠ specWinProbability gameDieOne.faces gameDieZero.faces := by
  have h1 : winCount gameDieOne.faces gameDieZero.faces = 1 := by decide
  unfold GameJs.calculateWinProbability specWinProbability
  rw [h1]
  simp [gameDieOne, gameDieZero]

/-- C2 (amended): index.ts computes the claimed formula, the winning
ordered pairs over the full cross product divided by the product of the
face counts, for all dice; game.js divides the same count by the
literal 36, so it agrees with the formula exactly when both dice have 6
faces, which is every die its parser admits. -/
theorem claim_C2_amended :
    (∀ A B : IndexTs.Dice, IndexTs.calculate A B = specWinProbability A.faces B.faces) ∧
    (∀ A B : GameJs.Dice, A.faces.length = 6 → B.faces.length = 6 →
      GameJs.calculateWinProbability A B = specWinProbability A.faces B.faces) := by
  constructor
  · intro A B
    unfold IndexTs.calculate specWinProbability IndexTs.Dice.numFaces
    by_cases h : 0 < A.faces.length * B.faces.length
    · rw [if_pos h]
      push_cast
      rfl
    · rw [if_neg h]
      have h0 : A.faces.length * B.faces.length = 0 := by omega
      have hc : ((A.faces.length : ℚ) * (B.faces.length : ℚ)) = 0 := by exact_mod_cast h0
      rw [hc, div_zero]
  · intro A B hA hB
    unfold GameJs.calculateWinProbability specWinProbability
    rw [hA, hB]
    norm_num

/-- C2 witness: the amended game.js conjunct evaluated on two concrete
6-face dice. -/
theorem claim_C2_witness :
    GameJs.calculateWinProbability diceA diceB
      = specWinProbability diceA.faces diceB.faces :=
  claim_C2_amended.2 diceA diceB (by decide) (by decide)

/-- C3: for every commitment produced by either generator, recomputing
the keyed hash of the encoded secret from the values exposed at reveal
yields exactly the digest published at commit time. -/
theorem claim_C3_roundtrip :
    ∀ (hash : List Nat → List Nat → List Nat) (range : Nat) (key : List Nat) (x y : Nat),
      GameJs.computeHMAC hash (GameJs.runSession hash range key x y).revealedKey
          (GameJs.runSession hash range key x y).revealedSecret
        = (GameJs.runSession hash range key x y).digest ∧
      IndexTs.calculateHMAC hash (IndexTs.runGenerate hash range key x y).revealedKey
          (IndexTs.runGenerate hash range key x y).revealedSecret
        = (IndexTs.runGenerate hash range key x y).digest :=
  fun _ _ _ _ _ => ⟨rfl, rfl⟩

/-- C4: the two digest computations are not extensionally equal.  The
byte sequence game.js feeds to the keyed hash (a single raw byte, the
secret modulo 256) differs from the one index.ts feeds (the decimal
string) for every secret, so under any keyed hash that is injective in
the message for the given key the digests differ; and the raw
single-byte encoding of game.js truncates, so any two secrets congruent
modulo 256 yield the same digest under the same key for every keyed
hash. -/
theorem claim_C4_encoding_divergence :
    (∀ s : Nat, GameJs.encodeByte s ≠ IndexTs.decDigits s) ∧
    (∀ (hash : List Nat → List Nat → List Nat) (key : List Nat) (s t : Nat),
      s % 256 = t % 256 → GameJs.computeHMAC hash key s = GameJs.computeHMAC hash key t) ∧
    (∀ (hash : List Nat → List Nat → List Nat) (key : List Nat),
      (∀ m1 m2 : List Nat, hash key m1 = hash key m2 → m1 = m2) →
      ∀ s : Nat, GameJs.computeHMAC hash key s ≠ IndexTs.calculateHMAC hash key s) := by
  refine ⟨encode_ne_decDigits, ?_, ?_⟩
  · intro hash key s t h
    unfold GameJs.computeHMAC GameJs.encodeByte
    rw [h]
  · intro hash key hinj s heq
    exact encode_ne_decDigits s (hinj _ _ heq)

/-- C4 witness: under the message-injective hash msgHash with the empty
key, the secrets 0 and 256 collide in the game.js digest, and the two
implementations disagree on the digest of the secret 0. -/
theorem claim_C4_witness :
    GameJs.computeHMAC msgHash [] 0 = GameJs.computeHMAC msgHash [] 256 ∧
    GameJs.computeHMAC msgHash [] 0 ≠ IndexTs.calculateHMAC msgHash [] 0 :=
  ⟨claim_C4_encoding_divergence.2.1 msgHash [] 0 256 (by decide),
   claim_C4_encoding_divergence.2.2 msgHash [] (fun _ _ h => h) 0⟩

/-- C5 counterexample: the claim says the help input during
AwaitingCounterpart performs only a display query and returns control
to the same state without re-running the commitment or restarting any
earlier step.  In index.ts a help input makes the session return null
and the play loop restart at determineFirst: on three one-face dice
with an otherwise identical input script, the run with one leading help
query publishes 4 commitments where the plain run publishes 3. -/
theorem claim_C5_counterexample :
    (IndexTs.play 5 dice3 secrets5 scriptHelp 0).1 = 4 ∧
    (IndexTs.play 5 dice3 secrets5 scriptPlain 0).1 = 3 ∧
    (IndexTs.play 5 dice3 secrets5 scriptHelp 0).1
      ≠ (IndexTs.play 5 dice3 secrets5 scriptPlain 0).1 := by
  refine ⟨?_, ?_, ?_⟩ <;> decide

/-- C5 (amended): in game.js the help input is consumed inside the same
input loop, so the session continues exactly as it would on the rest of
the script, with no contribution consumed and no commitment re-run; in
index.ts the help input aborts the current session and restarts the
play loop at determineFirst, which draws a fresh secret and publishes a
fresh commitment. -/
theorem claim_C5_amended :
    (∀ (range : Nat) (rest : List Input),
      GameJs.getUserNumber range (Input.help :: rest)
        = GameJs.getUserNumber range rest) ∧
    (∀ (fuel : Nat) (dice : List IndexTs.Dice) (s : Nat) (secrets : List Nat)
      (rest : List Input) (commits : Nat),
      IndexTs.play (fuel + 1) dice (s :: secrets) (Input.help :: rest) commits
        = IndexTs.play fuel dice secrets rest (commits + 1)) :=
  ⟨fun _ _ => rfl, fun _ _ _ _ _ _ => rfl⟩

/-- C6: for every session, when the secret and the counterpart
contribution both lie in the committed range, the combined result
(secret + contribution) mod range lies in the range as well, in both
implementations. -/
theorem claim_C6_result_in_range :
    ∀ (hash : List Nat → List Nat → List Nat) (range : Nat) (key : List Nat) (x y : Nat),
      x < range → y < range →
      (GameJs.mkFairRandomGenerator hash range key x).computeResult y < range ∧
      (IndexTs.runGenerate hash range key x y).result < range := by
  intro hash range key x y hx _
  have hr : 0 < range := by omega
  exact ⟨Nat.mod_lt _ hr, Nat.mod_lt _ hr⟩

/-- C6 witness: the range bound evaluated at range 2, secret 0,
contribution 1. -/
theorem claim_C6_witness :
    (GameJs.mkFairRandomGenerator msgHash 2 [] 0).computeResult 1 < 2 ∧
    (IndexTs.runGenerate msgHash 2 [] 0 1).result < 2 :=
  claim_C6_result_in_range msgHash 2 [] 0 1 (by decide) (by decide)

/-- C7: for dice with equal positive face counts, the two win
probabilities sum to at most 1, and adding the tie fraction gives
exactly 1; the same identity holds for the game.js function on the
6-face dice its parser admits. -/
theorem claim_C7_complement (A B : IndexTs.Dice)
    (hlen : A.faces.length = B.faces.length) (hpos : 0 < A.faces.length) :
    (IndexTs.calculate A B + IndexTs.calculate B A ≤ 1) ∧
    (IndexTs.calculate A B + IndexTs.calculate B A
      + specTieFraction A.faces B.faces = 1) ∧
    (∀ C D : GameJs.Dice, C.faces.length = 6 → D.faces.length = 6 →
      GameJs.calculateWinProbability C D + GameJs.calculateWinProbability D C
        + specTieFraction C.faces D.faces = 1) := by
  have hmB : 0 < B.faces.length := hlen ▸ hpos
  have hA : IndexTs.calculate A B
      = (winCount A.faces B.faces : ℚ) / ((A.faces.length : ℚ) * (B.faces.length : ℚ)) := by
    unfold IndexTs.calculate IndexTs.Dice.numFaces
    rw [if_pos (Nat.mul_pos hpos hmB)]
    push_cast
    rfl
  have hB : IndexTs.calculate B A
      = (winCount B.faces A.faces : ℚ) / ((B.faces.length : ℚ) * (A.faces.length : ℚ)) := by
    unfold IndexTs.calculate IndexTs.Dice.numFaces
    rw [if_pos (Nat.mul_pos hmB hpos)]
    push_cast
    rfl
  have hkey := win_tie_sum_rat A.faces B.faces hpos hmB
  have heq : IndexTs.calculate A B + IndexTs.calculate B A
      + specTieFraction A.faces B.faces = 1 := by
    rw [hA, hB]
    exact hkey
  refine ⟨?_, heq, ?_⟩
  · have hnn := specTieFraction_nonneg A.faces B.faces
    linarith
  · intro C D hC hD
    have hkey2 := win_tie_sum_rat C.faces D.faces (by omega) (by omega)
    rw [hC, hD] at hkey2
    unfold GameJs.calculateWinProbability
    norm_num at hkey2 ⊢
    linarith

/-- C7 witness: the complement law evaluated on the two standard
non-transitive dice. -/
theorem claim_C7_witness :
    IndexTs.calculate indexDiceA indexDiceB + IndexTs.calculate indexDiceB indexDiceA
      + specTieFraction indexDiceA.faces indexDiceB.faces = 1 :=
  (claim_C7_complement indexDiceA indexDiceB (by decide) (by decide)).2.1

/-- C8: after a selection step the chosen die is absent, by identity,
from the pool offered to the second mover, the pool shrinks by exactly
one, and every die still offered differs by identity from the chosen
one, in both the filter-based reduction of game.js and the splice-based
reduction of index.ts. -/
theorem claim_C8_pool_reduction :
    (∀ (pool : List GameJs.Dice) (chosen : GameJs.Dice),
      (pool.map GameJs.Dice.id).Nodup → chosen ∈ pool →
      chosen ∉ GameJs.remainingDice pool chosen ∧
      (GameJs.remainingDice pool chosen).length + 1 = pool.length ∧
      ∀ d ∈ GameJs.remainingDice pool chosen, d ∈ pool ∧ d.id ≠ chosen.id) ∧
    (∀ (available : List IndexTs.Dice) (idx : Nat) (chosen : IndexTs.Dice),
      (available.map IndexTs.Dice.id).Nodup → available[idx]? = some chosen →
      chosen ∉ IndexTs.spliceOut available idx ∧
      (IndexTs.spliceOut available idx).length + 1 = available.length ∧
      ∀ d ∈ IndexTs.spliceOut available idx, d ∈ available ∧ d.id ≠ chosen.id) := by
  constructor
  · intro pool chosen hnodup hmem
    refine ⟨?_, filter_ne_length pool chosen hnodup hmem, ?_⟩
    · intro hc
      have h := List.mem_filter.mp hc
      simp at h
    · intro d hd
      have h := List.mem_filter.mp hd
      exact ⟨h.1, by simpa using h.2⟩
  · intro available idx chosen hnodup hget
    exact eraseIdx_spec available idx chosen hnodup hget

/-- C8 witness: the pool reduction evaluated on concrete three-die
pools, one per implementation. -/
theorem claim_C8_witness :
    diceA ∉ GameJs.remainingDice [diceA, diceB, diceC] diceA ∧
    (⟨0, [1]⟩ : IndexTs.Dice) ∉ IndexTs.spliceOut dice3 0 :=
  ⟨(claim_C8_pool_reduction.1 [diceA, diceB, diceC] diceA (by decide) (by decide)).1,
   (claim_C8_pool_reduction.2 dice3 0 ⟨0, [1]⟩ (by decide) (by decide)).1⟩

/-- C9: the published digest is a function of the key and the secret
only: it does not depend on the range or on the counterpart
contribution, so any two contributions supplied to the same committed
session see the identical digest, in both implementations. -/
theorem claim_C9_digest_fixed :
    ∀ (hash : List Nat → List Nat → List Nat) (range range2 : Nat) (key : List Nat)
      (x y1 y2 : Nat),
      (GameJs.runSession hash range key x y1).digest
          = (GameJs.runSession hash range2 key x y2).digest ∧
      (GameJs.runSession hash range key x y1).digest = GameJs.computeHMAC hash key x ∧
      (IndexTs.runGenerate hash range key x y1).digest
          = (IndexTs.runGenerate hash range2 key x y2).digest ∧
      (IndexTs.runGenerate hash range key x y1).digest = IndexTs.calculateHMAC hash key x :=
  fun _ _ _ _ _ _ _ => ⟨rfl, rfl, rfl, rfl⟩

/-- C10: every roll-phase index stays strictly below the face count of
the rolled die, so getFace always returns one of the die faces: in
game.js the roll session range is the fixed 6 and the parser admits
only 6-face dice; in index.ts the roll session range is the face count
of the die, positive for every parsed die. -/
theorem claim_C10_roll_safe :
    (∀ (args : List (List Int)) (dice : List GameJs.Dice),
      GameJs.parseDiceConfigs args = .ok dice →
      ∀ d ∈ dice, ∀ x y : Nat,
        ∃ v, d.getFace ((x + y) % 6) = some v ∧ v ∈ d.faces) ∧
    (∀ (args : List (List Int)) (dice : List IndexTs.Dice),
      IndexTs.parse args = .ok dice →
      ∀ d ∈ dice, 0 < d.numFaces ∧ ∀ x y : Nat,
        ∃ v, d.getFace ((x % d.numFaces + y) % d.numFaces) = some v ∧ v ∈ d.faces) := by
  constructor
  · intro args dice h d hd x y
    have h6 := parse_game_faces h d hd
    have hlt : (x + y) % 6 < d.faces.length := by
      rw [h6]
      exact Nat.mod_lt _ (by omega)
    simpa [GameJs.Dice.getFace] using getElem_of_lt hlt
  · intro args dice h d hd
    have hpos := parse_index_faces h d hd
    refine ⟨hpos, ?_⟩
    intro x y
    have hlt : (x % d.numFaces + y) % d.numFaces < d.faces.length :=
      Nat.mod_lt _ hpos
    simpa [IndexTs.Dice.getFace] using getElem_of_lt hlt

/-- C10 witness: roll safety evaluated on a concrete valid command line
and concrete session values. -/
theorem claim_C10_witness :
    (∃ v, (GameJs.Dice.mk 0 [1, 1, 1, 1, 1, 1]).getFace ((3 + 5) % 6) = some v
        ∧ v ∈ (GameJs.Dice.mk 0 [1, 1, 1, 1, 1, 1]).faces) ∧
    (∃ v, (IndexTs.Dice.mk 0 [1, 1, 1, 1, 1, 1]).getFace
        ((7 % (IndexTs.Dice.mk 0 [1, 1, 1, 1, 1, 1]).numFaces + 4)
          % (IndexTs.Dice.mk 0 [1, 1, 1, 1, 1, 1]).numFaces) = some v
        ∧ v ∈ (IndexTs.Dice.mk 0 [1, 1, 1, 1, 1, 1]).faces) :=
  ⟨claim_C10_roll_safe.1 sixArgs sixDiceGame (by rfl) _ (by decide) 3 5,
   (claim_C10_roll_safe.2 sixArgs sixDiceIndex (by rfl) _ (by decide)).2 7 4⟩

end DiceGame
